import Mathlib

/-!
Shallow embedding of excel_to_ics.py: a converter that reads spreadsheet
rows and emits one iCalendar file per row.

Modelling conventions:
* a Python `datetime` is `PyDateTime`: wall-clock microseconds since an
  epoch (`naive : Int`) together with an optional UTC offset in minutes
  (`tzoff`, `none` for a naive datetime);
* a Python `datetime.time` (a time of day) is `PyTime`;
* the lenient `dateutil` parser is an external library; it is passed in
  abstractly as `P : String → Option PyDateTime` for `dateutil.parser.parse`
  and `PT : String → Option PyTime` for `dateutil.parser.parse(x).time()`,
  with `none` standing for a raised parse error;
* a `pytz` timezone is `Tz`, an assignment of a UTC offset (minutes) to
  each instant, so that `localize` and `astimezone` can be expressed;
* a pandas row dictionary is an ordered association list `Row`;
* raised exceptions are `Option`/`Except` error results.
-/

namespace ExcelToIcs

def usec : Int := 1000000

def umin : Int := 60 * usec

def uhour : Int := 60 * umin

def uday : Int := 24 * uhour

/-- Abstract timezone: the UTC offset, in minutes, that the zone assigns
to a given timestamp (microseconds since the epoch). -/
structure Tz where
  offsetAt : Int → Int

/-- Python datetime: wall-clock microseconds since the epoch plus an
optional UTC offset in minutes (`none` = naive). -/
structure PyDateTime where
  naive : Int
  tzoff : Option Int
deriving DecidableEq

/-- Python datetime.time: a time of day. -/
structure PyTime where
  hour : Nat
  minute : Nat
  second : Nat
  micro : Nat
deriving DecidableEq

/-- UTC instant of a datetime; naive datetimes are taken at face value. -/
def toUTC (d : PyDateTime) : Int := d.naive - (d.tzoff.getD 0) * umin

/-- Python comparison `a <= b` of two aware datetimes. -/
def dtLe (a b : PyDateTime) : Bool := decide (toUTC a ≤ toUTC b)

/-- Cell values of a spreadsheet row: strings, numbers, or native datetimes. -/
inductive Value where
  | str (s : String)
  | num (n : Int)
  | dt (d : PyDateTime)
deriving DecidableEq

/-- Rendering of a native datetime cell under `str(...)`; the exact text is
a model choice, no claim depends on it. -/
def dtRepr (d : PyDateTime) : String :=
  "datetime(" ++ toString d.naive ++ ")"

/-- Python `str(value)` on a cell value. -/
def pyStr : Value → String
  | .str s => s
  | .num n => toString n
  | .dt d => dtRepr d

/-- Python whitespace class used by `str.strip` and by the regex `\s`. -/
def isPySpace (c : Char) : Bool :=
  c == ' ' || c == '\t' || c == '\n' || c == '\r' || c == '\x0b' || c == '\x0c'

/-- Drop the longest suffix of characters satisfying `p`. -/
def dropRightW (p : Char → Bool) (l : List Char) : List Char :=
  (l.reverse.dropWhile p).reverse

/-- Python `str.strip()`: remove leading and trailing whitespace. -/
def pyStrip (s : String) : String :=
  String.mk (dropRightW isPySpace (s.data.dropWhile isPySpace))

/-- Ordered row dictionary: column name to cell value, in column order. -/
def Row : Type := List (String × Value)

/-- Python `row.get(k)` / `row[k]`: first binding of the key, if any. -/
def rowGet (row : Row) (k : String) : Option Value :=
  (List.find? (fun kv => kv.1 == k) row).map (fun kv => kv.2)

/-- Python `row.get(k, d)`. -/
def rowGetD (row : Row) (k : String) (d : Value) : Value :=
  (rowGet row k).getD d

/-- Translation of `parse_datetime(value, tz)`: use a native datetime cell
directly, otherwise run the lenient parser `P` on `str(value)`; then
localize a naive result to `tz`, or convert an aware result into `tz`
(preserving the UTC instant). -/
def parse_datetime (P : String → Option PyDateTime) (value : Value) (tz : Tz) :
    Option PyDateTime :=
  let parsed : Option PyDateTime :=
    match value with
    | .dt d => some d
    | v => P (pyStr v)
  match parsed with
  | none => none
  | some d =>
    match d.tzoff with
    | none => some ⟨d.naive, some (tz.offsetAt d.naive)⟩
    | some o =>
      let o2 := tz.offsetAt (d.naive - o * umin)
      some ⟨d.naive - o * umin + o2 * umin, some o2⟩

/-- First match of the regex pattern hyphen-with-optional-whitespace:
splits at the first hyphen, returning the characters before the
whitespace run that precedes it and the characters after the whitespace
run that follows it; `none` when the list has no hyphen. -/
def splitFirstHyphen : List Char → Option (List Char × List Char)
  | [] => none
  | c :: rest =>
    if c = '-' then some ([], rest.dropWhile isPySpace)
    else
      match splitFirstHyphen rest with
      | none => none
      | some (l, r) => some (c :: l, r)

/-- Translation of `re.split` with pattern whitespace-hyphen-whitespace and
maxsplit 1: the whole string when it has no hyphen, otherwise the two
pieces around the first hyphen with the adjacent whitespace consumed. -/
def re_split_hyphen (s : String) : List String :=
  match splitFirstHyphen s.data with
  | none => [s]
  | some (l, r) => [String.mk (dropRightW isPySpace l), String.mk r]

/-- Translation of `parse_time_range(value)`: split the stringified cell on
the first hyphen; fail unless the split yields exactly two parts and both
parse as times of day under the lenient parser `PT`. -/
def parse_time_range (PT : String → Option PyTime) (value : Value) :
    Option (PyTime × PyTime) :=
  match re_split_hyphen (pyStr value) with
  | [p1, p2] =>
    match PT p1, PT p2 with
    | some t1, some t2 => some (t1, t2)
    | _, _ => none
  | _ => none

/-- Translation of `row_description(row)`: a fixed header line, then one
line per row field in original order, joined by newlines. -/
def row_description (row : Row) : String :=
  let lines := List.foldl
    (fun acc kv => acc ++ ["- " ++ kv.1 ++ ": " ++ pyStr kv.2])
    ["Event details from spreadsheet:"] row
  String.intercalate "\n" lines

/-- Character class kept by filename sanitization. -/
def isFilenameChar (c : Char) : Bool :=
  ('A' ≤ c && c ≤ 'Z') || ('a' ≤ c && c ≤ 'z') || ('0' ≤ c && c ≤ '9') ||
    c == '_' || c == '-'

/-- Scanning translation of the global regex substitution replacing each
maximal run of disallowed characters by one underscore: the flag records
whether the scanner is inside such a run. -/
def collapseAux : Bool → List Char → List Char
  | _, [] => []
  | inRun, c :: cs =>
    if isFilenameChar c then c :: collapseAux false cs
    else if inRun then collapseAux true cs
    else '_' :: collapseAux true cs

/-- Python `str.strip` with an explicit underscore argument. -/
def stripUnderscore (l : List Char) : List Char :=
  dropRightW (fun c => c == '_') (l.dropWhile (fun c => c == '_'))

/-- Translation of `safe_filename(title, row_index)`. -/
def safe_filename (title : String) (row_index : Nat) : String :=
  let safe := stripUnderscore (collapseAux false title.data)
  let safe2 := if safe.isEmpty then "event".data else safe
  String.mk safe2 ++ "_" ++ toString row_index ++ ".ics"

/-- Translation of `start.replace(hour=t.hour, minute=t.minute,
second=t.second, microsecond=0)`: keep the date part and the timezone of
the datetime, set the time of day from `t` with microseconds zeroed. -/
def replace_hms (d : PyDateTime) (t : PyTime) : PyDateTime :=
  ⟨d.naive / uday * uday +
    ((t.hour * 3600 + t.minute * 60 + t.second : Nat) : Int) * usec,
   d.tzoff⟩

/-- One VALARM subcomponent. -/
structure VAlarm where
  action : String
  description : String
  triggerMinutes : Int
  xAppleLocalDefaultAlarm : Bool
  xAppleDefaultAlarm : Bool
deriving DecidableEq

/-- One VEVENT component, with its attached alarms. -/
structure VEvent where
  summary : String
  dtstart : PyDateTime
  dtend : PyDateTime
  location : Option String
  description : String
  transp : String
  xAppleTravelAdvisoryBehavior : String
  xAppleTravelDuration : String
  alarms : List VAlarm
deriving DecidableEq

/-- The calendar object produced for one row. -/
structure Calendar where
  prodid : String
  version : String
  event : VEvent
deriving DecidableEq

/-- Happy path of `build_event` after the date cell parsed to `start` and
the time cell parsed to the pair of times of day: title and venue
extraction, datetime composition with the one-hour fallback, description,
alarm, and assembly of the calendar object. -/
def build_event_core (row : Row) (alert_minutes : Int) (start : PyDateTime)
    (start_time end_time : PyTime) : Calendar :=
  let title0 := pyStrip (pyStr (rowGetD row "title" (.str "Event")))
  let title := if title0 = "" then "Event" else title0
  let venue := pyStrip (pyStr (rowGetD row "venue" (.str "")))
  let dtstart := replace_hms start start_time
  let dtend0 := replace_hms start end_time
  let dtend := if dtLe dtend0 dtstart then
      ⟨dtstart.naive + uhour, dtstart.tzoff⟩
    else dtend0
  let alert : VAlarm :=
    ⟨"DISPLAY", "Leave now to arrive on time.",
      -((alert_minutes.natAbs : Int)), true, true⟩
  ⟨"-//Excel to ICS Converter//EN", "2.0",
    ⟨title, dtstart, dtend,
      if venue = "" then none else some venue,
      row_description row, "OPAQUE", "AUTOMATIC", "PT0M", [alert]⟩⟩

/-- Translation of `build_event(row, tz, alert_minutes)`: look up the date
and time cells (a missing key raises), parse them, and build the calendar
object; any raised error propagates as `none`. -/
def build_event (P : String → Option PyDateTime) (PT : String → Option PyTime)
    (row : Row) (tz : Tz) (alert_minutes : Int) : Option Calendar :=
  match rowGet row "date", rowGet row "time" with
  | some dateVal, some timeVal =>
    match parse_datetime P dateVal tz, parse_time_range PT timeVal with
    | some start, some (start_time, end_time) =>
      some (build_event_core row alert_minutes start start_time end_time)
    | _, _ => none
  | _, _ => none

/-- The required column set, listed in alphabetical order so that the
sorted error message is the filtered list. -/
def REQUIRED_SORTED : List String := ["date", "time", "title", "venue"]

/-- A pandas dataframe: the column headers and the rows of cell values. -/
structure DataFrame where
  cols : List String
  rows : List (List Value)

/-- Python `str.lower()`: lowercase character by character. -/
def pyLower (s : String) : String :=
  String.mk (s.data.map Char.toLower)

/-- Normalized header names of a dataframe (trim then lowercase). -/
def normalizedCols (df : DataFrame) : List String :=
  df.cols.map (fun c => pyLower (pyStrip c))

/-- Required columns absent after normalization, in alphabetical order. -/
def missing_of (df : DataFrame) : List String :=
  REQUIRED_SORTED.filter (fun r => !(normalizedCols df).contains r)

/-- Translation of `normalize_columns(df)`: rename every header with trim
and lowercase, then raise when a required column is missing, naming the
missing columns sorted and comma-joined. -/
def normalize_columns (df : DataFrame) : Except String DataFrame :=
  if (missing_of df).isEmpty then .ok ⟨normalizedCols df, df.rows⟩
  else .error ("Missing required columns: " ++
    String.intercalate ", " (missing_of df))

/-- Python `row.to_dict()` for one dataframe row. -/
def rowDict (cols : List String) (vals : List Value) : Row := cols.zip vals

/-- Filename computed in the main loop for a row at the given 1-based
index: the raw title cell (default string "event" when the key is absent)
run through `safe_filename`. -/
def filename_for_row (row : Row) (idx1 : Nat) : String :=
  safe_filename (pyStr (rowGetD row "title" (.str "event"))) idx1

/-- The per-row loop of `main`: build each calendar and pair it with its
filename, indices starting at 1; the first failing row aborts the run. -/
def process_rows (P : String → Option PyDateTime) (PT : String → Option PyTime)
    (tz : Tz) (alert_minutes : Int) :
    Nat → List Row → Option (List (String × Calendar))
  | _, [] => some []
  | idx1, row :: rest =>
    match build_event P PT row tz alert_minutes with
    | none => none
    | some cal =>
      match process_rows P PT tz alert_minutes (idx1 + 1) rest with
      | none => none
      | some out => some ((filename_for_row row idx1, cal) :: out)

/-- Translation of `main` after reading the spreadsheet: normalize and
validate the columns first, then process the rows in order. -/
def main_run (P : String → Option PyDateTime) (PT : String → Option PyTime)
    (df : DataFrame) (tz : Tz) (alert_minutes : Int) :
    Except String (List (String × Calendar)) :=
  match normalize_columns df with
  | .error e => .error e
  | .ok df2 =>
    match process_rows P PT tz alert_minutes 1
        (df2.rows.map (fun vals => rowDict df2.cols vals)) with
    | none => .error "row processing failed"
    | some out => .ok out

/-- Fuelled recursion following the words of the specification: replace
every maximal run of characters outside the allowed class with a single
underscore. Fuel at least the length of the list suffices. -/
def collapseSpecFuel : Nat → List Char → List Char
  | 0, _ => []
  | _ + 1, [] => []
  | n + 1, c :: cs =>
    if isFilenameChar c then c :: collapseSpecFuel n cs
    else '_' :: collapseSpecFuel n (cs.dropWhile (fun x => !isFilenameChar x))

/-- Specification-side run collapsing. -/
def collapseRunsSpec (l : List Char) : List Char :=
  collapseSpecFuel l.length l

/-- Filename derivation following the words of the specification: collapse
runs of disallowed characters, trim underscores at both ends, default to
the string "event" when empty, append the underscore, the 1-based index
and the extension. -/
def safe_filename_spec (title : String) (idx : Nat) : String :=
  let trimmed := stripUnderscore (collapseRunsSpec title.data)
  (if trimmed.isEmpty then "event" else String.mk trimmed) ++
    "_" ++ toString idx ++ ".ics"

/-! Concrete exemplar inputs used by witness theorems. -/

/-- Exemplar timezone: a fixed zero offset. -/
def wTz : Tz := ⟨fun _ => 0⟩

/-- Exemplar lenient date parser: every string parses to the naive epoch. -/
def wP : String → Option PyDateTime := fun _ => some ⟨0, none⟩

/-- Exemplar lenient time parser: recognizes two clock times. -/
def wPT : String → Option PyTime := fun s =>
  if s = "9:00 AM" then some ⟨9, 0, 0, 0⟩
  else if s = "10:00 AM" then some ⟨10, 0, 0, 0⟩
  else none

/-- Exemplar row with all four required fields and one extra field. -/
def wRow : Row :=
  [("title", Value.str "Team Sync"), ("date", Value.str "2024-01-01"),
   ("time", Value.str "9:00 AM - 10:00 AM"), ("venue", Value.str "HQ"),
   ("notes", Value.str "bring slides")]

/-- Fallback calendar object used only to destructure option results. -/
def wCalDefault : Calendar :=
  ⟨"", "", ⟨"", ⟨0, none⟩, ⟨0, none⟩, none, "", "", "", "", []⟩⟩

/-- The calendar the exemplar row builds. -/
def wCal : Calendar :=
  (build_event wP wPT wRow wTz 30).getD wCalDefault

/-- The calendar the exemplar row builds with a negative alert argument. -/
def wCalNeg : Calendar :=
  (build_event wP wPT wRow wTz (-5)).getD wCalDefault

/-- Exemplar time parser whose first clock time carries 30 seconds. -/
def wPT30 : String → Option PyTime := fun s =>
  if s = "9:00:30 AM" then some ⟨9, 0, 30, 0⟩
  else if s = "10:00 AM" then some ⟨10, 0, 0, 0⟩
  else none

/-- Exemplar row whose time range has a seconds component. -/
def wRow30 : Row :=
  [("title", Value.str "Standup"), ("date", Value.str "2024-01-01"),
   ("time", Value.str "9:00:30 AM - 10:00 AM"), ("venue", Value.str "HQ")]

/-- The calendar built from the exemplar row with a seconds component. -/
def wCal30 : Calendar :=
  (build_event wP wPT30 wRow30 wTz 30).getD wCalDefault

/-- Exemplar row whose title cell is whitespace only. -/
def wRowBlank : Row :=
  [("title", Value.str "   "), ("date", Value.str "2024-01-01"),
   ("time", Value.str "9:00 AM - 10:00 AM"), ("venue", Value.str "HQ")]

/-- The calendar built from the exemplar row with a blank title. -/
def wCalBlank : Calendar :=
  (build_event wP wPT wRowBlank wTz 30).getD wCalDefault

/-- Exemplar dataframe missing the time and venue columns. -/
def wDfMissing : DataFrame :=
  ⟨[" Title ", "Date"], [[Value.str "a", Value.str "b"]]⟩

/-- Exemplar dataframe with all required columns present, oddly cased. -/
def wDfFull : DataFrame :=
  ⟨[" Title ", "DATE", "time", " Venue"],
   [[Value.str "a", Value.str "b", Value.str "c", Value.str "d"]]⟩

/-- Seconds component of the time of day of a datetime. -/
def secOf (d : PyDateTime) : Int := (d.naive / usec) % 60

/-- Sub-second (microsecond) component of a datetime. -/
def microOf (d : PyDateTime) : Int := d.naive % usec

/-! Helper lemmas. -/

theorem length_dropWhile_le (p : Char → Bool) (l : List Char) :
    (l.dropWhile p).length ≤ l.length := by
  induction l with
  | nil => simp [List.dropWhile]
  | cons c cs ih =>
    simp only [List.dropWhile]
    cases hpc : p c
    · simp
    · simpa using Nat.le_succ_of_le ih

theorem collapseAux_true (l : List Char) :
    collapseAux true l = collapseAux false (l.dropWhile (fun x => !isFilenameChar x)) := by
  induction l with
  | nil => rfl
  | cons c cs ih =>
    by_cases h : isFilenameChar c = true
    · simp [collapseAux, List.dropWhile, h]
    · simp only [Bool.not_eq_true] at h
      simp [collapseAux, List.dropWhile, h, ih]

theorem collapseAux_eq_fuel :
    ∀ (n : Nat) (l : List Char), l.length ≤ n →
      collapseAux false l = collapseSpecFuel n l := by
  intro n
  induction n with
  | zero =>
    intro l hl
    have : l = [] := List.length_eq_zero.mp (Nat.le_zero.mp hl)
    subst this
    rfl
  | succ n ih =>
    intro l hl
    cases l with
    | nil => rfl
    | cons c cs =>
      simp only [List.length_cons, Nat.succ_le_succ_iff] at hl
      by_cases h : isFilenameChar c = true
      · simp [collapseAux, collapseSpecFuel, h, ih cs hl]
      · simp only [Bool.not_eq_true] at h
        have hlen : (cs.dropWhile (fun x => !isFilenameChar x)).length ≤ n :=
          le_trans (length_dropWhile_le _ cs) hl
        simp [collapseAux, collapseSpecFuel, h, collapseAux_true,
          ih _ hlen]

theorem safe_filename_eq_spec (t : String) (i : Nat) :
    safe_filename t i = safe_filename_spec t i := by
  unfold safe_filename safe_filename_spec collapseRunsSpec
  rw [← collapseAux_eq_fuel t.data.length t.data le_rfl]
  cases h : (stripUnderscore (collapseAux false t.data)).isEmpty
  · simp [h]
  · simp [h]

theorem build_event_some (P : String → Option PyDateTime)
    (PT : String → Option PyTime) (row : Row) (tz : Tz) (m : Int)
    (cal : Calendar) (h : build_event P PT row tz m = some cal) :
    ∃ dv tv start st et,
      rowGet row "date" = some dv ∧ rowGet row "time" = some tv ∧
      parse_datetime P dv tz = some start ∧
      parse_time_range PT tv = some (st, et) ∧
      cal = build_event_core row m start st et := by
  unfold build_event at h
  split at h
  · rename_i dv tv hdv htv
    split at h
    · rename_i start st et hstart hpar
      exact ⟨dv, tv, start, st, et, hdv, htv, hstart, hpar,
        (Option.some.inj h).symm⟩
    · exact Option.noConfusion h
  · exact Option.noConfusion h

theorem splitFirstHyphen_none_iff (l : List Char) :
    splitFirstHyphen l = none ↔ ∀ c ∈ l, c ≠ '-' := by
  induction l with
  | nil => simp [splitFirstHyphen]
  | cons c cs ih =>
    simp only [splitFirstHyphen]
    by_cases hc : c = '-'
    · subst hc
      simp
    · rw [if_neg hc]
      cases hs : splitFirstHyphen cs with
      | none =>
        have hall := ih.mp hs
        simp [hc]
        exact hall
      | some pr =>
        have hnot : ¬ ∀ x ∈ cs, x ≠ '-' := by
          intro hall
          rw [ih.mpr hall] at hs
          exact Option.noConfusion hs
        simp [hc, hnot]

theorem isPySpace_not_filenameChar (c : Char) (h : isPySpace c = true) :
    isFilenameChar c = false := by
  simp only [isPySpace, Bool.or_eq_true, beq_iff_eq] at h
  rcases h with ((((h | h) | h) | h) | h) | h <;> subst h <;> decide

theorem collapseAux_true_allBad (l : List Char)
    (h : ∀ c ∈ l, isFilenameChar c = false) : collapseAux true l = [] := by
  induction l with
  | nil => rfl
  | cons c cs ih =>
    have hc := h c (by simp)
    simp only [collapseAux, hc]
    simp only [Bool.false_eq_true, if_false]
    exact ih (fun x hx => h x (by simp [hx]))

theorem stripUnderscore_collapse_allBad (l : List Char)
    (h : ∀ c ∈ l, isFilenameChar c = false) :
    stripUnderscore (collapseAux false l) = [] := by
  cases l with
  | nil => rfl
  | cons c cs =>
    have hc := h c (by simp)
    have hcs : collapseAux true cs = [] :=
      collapseAux_true_allBad cs (fun x hx => h x (by simp [hx]))
    simp only [collapseAux, hc, Bool.false_eq_true, if_false, hcs]
    rfl

theorem pyStrip_allSpace (s : String) (hs : ∀ c ∈ s.data, isPySpace c = true) :
    pyStrip s = "" := by
  unfold pyStrip
  have h1 : s.data.dropWhile isPySpace = [] := by
    rw [List.dropWhile_eq_nil_iff]
    exact hs
  rw [h1]
  rfl

theorem core_summary (row : Row) (m : Int) (start : PyDateTime)
    (st et : PyTime) :
    (build_event_core row m start st et).event.summary =
      (if pyStrip (pyStr (rowGetD row "title" (Value.str "Event"))) = ""
       then "Event"
       else pyStrip (pyStr (rowGetD row "title" (Value.str "Event")))) :=
  rfl

theorem foldl_snoc (f : String × Value → String) (row : List (String × Value)) :
    ∀ acc : List String,
      List.foldl (fun a kv => a ++ [f kv]) acc row = acc ++ row.map f := by
  induction row with
  | nil => intro acc; simp
  | cons kv rest ih =>
    intro acc
    simp [List.foldl, ih]

theorem core_dtstart (row : Row) (m : Int) (start : PyDateTime)
    (st et : PyTime) :
    (build_event_core row m start st et).event.dtstart = replace_hms start st :=
  rfl

theorem core_dtend (row : Row) (m : Int) (start : PyDateTime) (st et : PyTime) :
    (build_event_core row m start st et).event.dtend =
      if dtLe (replace_hms start et) (replace_hms start st) then
        ⟨(replace_hms start st).naive + uhour, (replace_hms start st).tzoff⟩
      else replace_hms start et :=
  rfl

theorem replace_hms_tzoff (d : PyDateTime) (t : PyTime) :
    (replace_hms d t).tzoff = d.tzoff :=
  rfl

theorem microOf_replace_hms (d : PyDateTime) (t : PyTime) :
    microOf (replace_hms d t) = 0 := by
  simp only [microOf, replace_hms, uday, uhour, umin, usec]
  push_cast
  norm_num
  omega

theorem microOf_replace_hms_uhour (d : PyDateTime) (t : PyTime) :
    microOf ⟨(replace_hms d t).naive + uhour, (replace_hms d t).tzoff⟩ = 0 := by
  simp only [microOf, replace_hms, uday, uhour, umin, usec]
  push_cast
  norm_num
  omega

theorem secOf_replace_hms (d : PyDateTime) (t : PyTime) (h : t.second < 60) :
    secOf (replace_hms d t) = (t.second : Int) := by
  simp only [secOf, replace_hms, uday, uhour, umin, usec]
  push_cast
  omega

/-! Claim theorems. -/

/-- Claim C1: when the date and time cells of a row parse successfully,
the produced event satisfies endDateTime strictly after startDateTime;
and when the end time of day composed onto the start date is not strictly
after the start, the end is exactly the start plus one hour. -/
theorem claim_C1 (P : String → Option PyDateTime) (PT : String → Option PyTime)
    (row : Row) (tz : Tz) (m : Int) (cal : Calendar)
    (h : build_event P PT row tz m = some cal) :
    toUTC cal.event.dtstart < toUTC cal.event.dtend
    ∧ ∃ dv tv start st et,
        rowGet row "date" = some dv ∧ rowGet row "time" = some tv ∧
        parse_datetime P dv tz = some start ∧
        parse_time_range PT tv = some (st, et) ∧
        cal.event.dtstart = replace_hms start st ∧
        (dtLe (replace_hms start et) (replace_hms start st) = true →
          cal.event.dtend = ⟨(replace_hms start st).naive + uhour,
            (replace_hms start st).tzoff⟩) := by
  obtain ⟨dv, tv, start, st, et, h1, h2, h3, h4, rfl⟩ :=
    build_event_some P PT row tz m cal h
  have hds := core_dtstart row m start st et
  have hde := core_dtend row m start st et
  constructor
  · rw [hds, hde]
    by_cases hle : dtLe (replace_hms start et) (replace_hms start st) = true
    · rw [if_pos hle]
      have h0 : (0 : Int) < uhour := by norm_num [uhour, umin, usec]
      dsimp only [toUTC]
      linarith
    · rw [if_neg hle]
      have hlt : ¬ toUTC (replace_hms start et) ≤ toUTC (replace_hms start st) := by
        simpa [dtLe] using hle
      exact not_le.mp hlt
  · refine ⟨dv, tv, start, st, et, h1, h2, h3, h4, hds, ?_⟩
    intro hle
    rw [hde, if_pos hle]

/-- Claim C1, witness at the exemplar row. -/
theorem claim_C1_witness :
    toUTC wCal.event.dtstart < toUTC wCal.event.dtend
    ∧ ∃ dv tv start st et,
        rowGet wRow "date" = some dv ∧ rowGet wRow "time" = some tv ∧
        parse_datetime wP dv wTz = some start ∧
        parse_time_range wPT tv = some (st, et) ∧
        wCal.event.dtstart = replace_hms start st ∧
        (dtLe (replace_hms start et) (replace_hms start st) = true →
          wCal.event.dtend = ⟨(replace_hms start st).naive + uhour,
            (replace_hms start st).tzoff⟩) :=
  claim_C1 wP wPT wRow wTz 30 wCal rfl

/-- Claim C2, counterexample: with a time range whose start carries a
seconds component, the built start datetime has seconds 30, so seconds
are not zeroed as the claim states; only sub-seconds are zeroed. -/
theorem claim_C2_counterexample :
    build_event wP wPT30 wRow30 wTz 30 = some wCal30
    ∧ secOf wCal30.event.dtstart = 30
    ∧ (30 : Int) ≠ 0 := by
  refine ⟨rfl, rfl, by decide⟩

/-- Claim C2, amended: startDateTime is the parsed date combined with the
start time of day and endDateTime is the parsed date combined with the
end time of day, except that when that candidate end is not strictly
after the start it is replaced by startDateTime plus exactly one hour,
both in the configured timezone; sub-seconds are zeroed in both, but the
seconds field is copied from the corresponding parsed time of day rather
than zeroed. -/
theorem claim_C2_amended (P : String → Option PyDateTime)
    (PT : String → Option PyTime) (row : Row) (tz : Tz) (m : Int)
    (cal : Calendar) (h : build_event P PT row tz m = some cal) :
    ∃ dv tv start st et,
      rowGet row "date" = some dv ∧ rowGet row "time" = some tv ∧
      parse_datetime P dv tz = some start ∧
      parse_time_range PT tv = some (st, et) ∧
      cal.event.dtstart = replace_hms start st ∧
      cal.event.dtend =
        (if dtLe (replace_hms start et) (replace_hms start st) then
          ⟨(replace_hms start st).naive + uhour, (replace_hms start st).tzoff⟩
        else replace_hms start et) ∧
      cal.event.dtstart.tzoff = start.tzoff ∧
      cal.event.dtend.tzoff = start.tzoff ∧
      microOf cal.event.dtstart = 0 ∧
      microOf cal.event.dtend = 0 ∧
      (st.second < 60 → secOf cal.event.dtstart = (st.second : Int)) ∧
      (dtLe (replace_hms start et) (replace_hms start st) = false →
        et.second < 60 → secOf cal.event.dtend = (et.second : Int)) := by
  obtain ⟨dv, tv, start, st, et, h1, h2, h3, h4, rfl⟩ :=
    build_event_some P PT row tz m cal h
  have hds := core_dtstart row m start st et
  have hde := core_dtend row m start st et
  refine ⟨dv, tv, start, st, et, h1, h2, h3, h4, hds, hde, ?_, ?_, ?_, ?_,
    ?_, ?_⟩
  · rw [hds, replace_hms_tzoff]
  · rw [hde]
    by_cases hle : dtLe (replace_hms start et) (replace_hms start st) = true
    · rw [if_pos hle]
      exact replace_hms_tzoff start st
    · rw [if_neg hle]
      exact replace_hms_tzoff start et
  · rw [hds]
    exact microOf_replace_hms start st
  · rw [hde]
    by_cases hle : dtLe (replace_hms start et) (replace_hms start st) = true
    · rw [if_pos hle]
      exact microOf_replace_hms_uhour start st
    · rw [if_neg hle]
      exact microOf_replace_hms start et
  · intro hsec
    rw [hds]
    exact secOf_replace_hms start st hsec
  · intro hle hsec
    rw [hde]
    have hne : ¬ dtLe (replace_hms start et) (replace_hms start st) = true := by
      rw [hle]
      exact Bool.false_ne_true
    rw [if_neg hne]
    exact secOf_replace_hms start et hsec

/-- Claim C2, witness for the amended theorem at the exemplar row with a
seconds component. -/
theorem claim_C2_witness :
    ∃ dv tv start st et,
      rowGet wRow30 "date" = some dv ∧ rowGet wRow30 "time" = some tv ∧
      parse_datetime wP dv wTz = some start ∧
      parse_time_range wPT30 tv = some (st, et) ∧
      wCal30.event.dtstart = replace_hms start st ∧
      wCal30.event.dtend =
        (if dtLe (replace_hms start et) (replace_hms start st) then
          ⟨(replace_hms start st).naive + uhour, (replace_hms start st).tzoff⟩
        else replace_hms start et) ∧
      wCal30.event.dtstart.tzoff = start.tzoff ∧
      wCal30.event.dtend.tzoff = start.tzoff ∧
      microOf wCal30.event.dtstart = 0 ∧
      microOf wCal30.event.dtend = 0 ∧
      (st.second < 60 → secOf wCal30.event.dtstart = (st.second : Int)) ∧
      (dtLe (replace_hms start et) (replace_hms start st) = false →
        et.second < 60 → secOf wCal30.event.dtend = (et.second : Int)) :=
  claim_C2_amended wP wPT30 wRow30 wTz 30 wCal30 rfl

/-- Claim C7: the built event carries exactly one reminder subcomponent,
whose trigger is minus the absolute value of the alert-minutes argument,
hence a non-positive offset, for every integer argument including
negative ones. -/
theorem claim_C7 (P : String → Option PyDateTime) (PT : String → Option PyTime)
    (row : Row) (tz : Tz) (m : Int) (cal : Calendar)
    (h : build_event P PT row tz m = some cal) :
    ∃ a, cal.event.alarms = [a] ∧ a.triggerMinutes = -|m| ∧
      a.triggerMinutes ≤ 0 := by
  obtain ⟨dv, tv, start, st, et, _, _, _, _, rfl⟩ :=
    build_event_some P PT row tz m cal h
  refine ⟨_, rfl, ?_, ?_⟩
  · show -((m.natAbs : Int)) = -|m|
    rw [Int.abs_eq_natAbs]
  · show -((m.natAbs : Int)) ≤ 0
    omega

/-- Claim C7, witness with a negative alert-minutes argument. -/
theorem claim_C7_witness :
    ∃ a, wCalNeg.event.alarms = [a] ∧ a.triggerMinutes = -|(-5 : Int)| ∧
      a.triggerMinutes ≤ 0 :=
  claim_C7 wP wPT wRow wTz (-5) wCalNeg rfl

/-- Claim C3, counterexample: a row whose title cell is whitespace-only
yields the filename "event_1.ics" at row index 1, not "Event_1.ics" as the
claim states, because the main loop passes the raw title to the filename
sanitizer and the empty fallback there is the lowercase string "event". -/
theorem claim_C3_counterexample :
    filename_for_row wRowBlank 1 = "event_1.ics" ∧
      filename_for_row wRowBlank 1 ≠ "Event_1.ics" := by
  constructor
  · rfl
  · decide

/-- Claim C3, amended: for every row whose title cell is an empty or
whitespace-only string, sanitization collapses the raw title to the empty
name and the lowercase fallback "event" inside safe_filename applies, so
the output filename at 1-based index idx is "event_" followed by the
index and ".ics"; the "Event" title default of build_event affects only
the event summary, not the filename. -/
theorem claim_C3_amended (s : String) (row : Row) (idx : Nat)
    (hrow : rowGet row "title" = some (Value.str s))
    (hs : ∀ c ∈ s.data, isPySpace c = true) :
    filename_for_row row idx = "event_" ++ toString idx ++ ".ics"
    ∧ ∀ (P : String → Option PyDateTime) (PT : String → Option PyTime)
        (tz : Tz) (m : Int) (cal : Calendar),
        build_event P PT row tz m = some cal →
        cal.event.summary = "Event" := by
  constructor
  · have hbad : ∀ c ∈ s.data, isFilenameChar c = false := fun c hc =>
      isPySpace_not_filenameChar c (hs c hc)
    unfold filename_for_row rowGetD
    rw [hrow]
    show safe_filename s idx = _
    unfold safe_filename
    rw [stripUnderscore_collapse_allBad s.data hbad]
    simp [show String.mk "event".data ++ "_" = "event_" from rfl]
  · intro P PT tz m cal h
    obtain ⟨dv, tv, start, st, et, _, _, _, _, rfl⟩ :=
      build_event_some P PT row tz m cal h
    rw [core_summary]
    unfold rowGetD
    rw [hrow]
    simp only [Option.getD_some, pyStr]
    rw [pyStrip_allSpace s hs]
    simp

/-- Claim C3, witness for the amended theorem at a concrete blank row:
the filename uses the lowercase fallback and the event summary carries
the "Event" default. -/
theorem claim_C3_witness :
    filename_for_row wRowBlank 1 = "event_" ++ toString 1 ++ ".ics"
    ∧ wCalBlank.event.summary = "Event" :=
  ⟨(claim_C3_amended "   " wRowBlank 1 rfl (by decide)).1,
   (claim_C3_amended "   " wRowBlank 1 rfl (by decide)).2
     wP wPT wTz 30 wCalBlank rfl⟩

/-- Claim C4: when any required column is absent after trim-and-lowercase
normalization, the whole run fails with the single aggregated message
naming the missing columns in alphabetical order, comma-joined, and it
does so whatever the rows contain (so before any row is processed); when
all four are present, normalization succeeds with the renamed columns. -/
theorem claim_C4 (df : DataFrame) :
    (missing_of df ≠ [] →
      ∀ (P : String → Option PyDateTime) (PT : String → Option PyTime)
        (tz : Tz) (m : Int),
        main_run P PT df tz m =
          .error ("Missing required columns: " ++
            String.intercalate ", " (missing_of df)))
    ∧ (missing_of df = [] →
        normalize_columns df = .ok ⟨normalizedCols df, df.rows⟩) := by
  constructor
  · intro hne P PT tz m
    have hf : (missing_of df).isEmpty = false := by
      rw [List.isEmpty_eq_false]
      exact hne
    unfold main_run normalize_columns
    rw [hf]
    rfl
  · intro he
    unfold normalize_columns
    rw [he]
    rfl

/-- Claim C4, witness: a dataframe missing time and venue fails with the
aggregated message, and a dataframe with oddly cased and padded headers
for all four required columns normalizes successfully. -/
theorem claim_C4_witness :
    main_run wP wPT wDfMissing wTz 30 =
      .error ("Missing required columns: " ++
        String.intercalate ", " (missing_of wDfMissing))
    ∧ normalize_columns wDfFull = .ok ⟨normalizedCols wDfFull, wDfFull.rows⟩ :=
  ⟨(claim_C4 wDfMissing).1 (by decide) wP wPT wTz 30,
   (claim_C4 wDfFull).2 (by decide)⟩

/-- Claim C6: for every title and 1-based index the produced filename
equals the specification derivation (collapse each maximal run of
characters outside the allowed class to one underscore, trim underscores
at both ends, default to "event" when empty, append the index and the
extension), and the concrete title "Team Sync: Q1!!" at index 3 yields
"Team_Sync_Q1_3.ics". -/
theorem claim_C6 :
    (∀ (t : String) (i : Nat), safe_filename t i = safe_filename_spec t i)
    ∧ safe_filename "Team Sync: Q1!!" 3 = "Team_Sync_Q1_3.ics" := by
  refine ⟨safe_filename_eq_spec, ?_⟩
  rfl

/-- Claim C9: the rendered description is the fixed header line followed
by one line per row field in original key order, with stringified values,
and the built calendar carries exactly this description. -/
theorem claim_C9 (row : Row) :
    row_description row =
      String.intercalate "\n" ("Event details from spreadsheet:" ::
        row.map (fun kv => "- " ++ kv.1 ++ ": " ++ pyStr kv.2))
    ∧ ∀ (P : String → Option PyDateTime) (PT : String → Option PyTime)
        (tz : Tz) (m : Int) (cal : Calendar),
        build_event P PT row tz m = some cal →
        cal.event.description = row_description row := by
  constructor
  · unfold row_description
    rw [foldl_snoc]
    rfl
  · intro P PT tz m cal h
    obtain ⟨dv, tv, start, st, et, _, _, _, _, rfl⟩ :=
      build_event_some P PT row tz m cal h
    rfl

/-- Claim C9, witness at the exemplar row with an extra field. -/
theorem claim_C9_witness : wCal.event.description = row_description wRow :=
  (claim_C9 wRow).2 wP wPT wTz 30 wCal rfl

/-- Claim C5: the time cell is split on a hyphen optionally surrounded by
whitespace; the split yields something other than exactly two parts
precisely when the string has no hyphen; parsing fails exactly when the
split does not yield exactly two parts or one of the parts does not parse
as a time of day; and on success the two parts are parsed independently. -/
theorem claim_C5 (PT : String → Option PyTime) (v : Value) :
    ((re_split_hyphen (pyStr v)).length ≠ 2 ↔ ∀ c ∈ (pyStr v).data, c ≠ '-')
    ∧ (parse_time_range PT v = none ↔
        ((re_split_hyphen (pyStr v)).length ≠ 2 ∨
          ∃ p1 p2, re_split_hyphen (pyStr v) = [p1, p2] ∧
            (PT p1 = none ∨ PT p2 = none)))
    ∧ ∀ t1 t2, parse_time_range PT v = some (t1, t2) ↔
        ∃ p1 p2, re_split_hyphen (pyStr v) = [p1, p2] ∧
          PT p1 = some t1 ∧ PT p2 = some t2 := by
  cases hs : splitFirstHyphen (pyStr v).data with
  | none =>
    have hall := (splitFirstHyphen_none_iff _).mp hs
    have hsplit : re_split_hyphen (pyStr v) = [pyStr v] := by
      unfold re_split_hyphen
      rw [hs]
    have hrange : parse_time_range PT v = none := by
      unfold parse_time_range
      rw [hsplit]
    refine ⟨?_, ?_, ?_⟩
    · exact iff_of_true (by simp [hsplit]) hall
    · rw [hrange, hsplit]
      simp
    · intro t1 t2
      rw [hrange, hsplit]
      simp
  | some pr =>
    obtain ⟨l1, r1⟩ := pr
    have hsplit : re_split_hyphen (pyStr v) =
        [String.mk (dropRightW isPySpace l1), String.mk r1] := by
      unfold re_split_hyphen
      rw [hs]
    have hnh : ¬ ∀ c ∈ (pyStr v).data, c ≠ '-' := by
      intro hall
      rw [(splitFirstHyphen_none_iff _).mpr hall] at hs
      exact Option.noConfusion hs
    have hrange : parse_time_range PT v =
        (match PT (String.mk (dropRightW isPySpace l1)), PT (String.mk r1) with
         | some t1, some t2 => some (t1, t2)
         | _, _ => none) := by
      unfold parse_time_range
      rw [hsplit]
    refine ⟨?_, ?_, ?_⟩
    · exact iff_of_false (by simp [hsplit]) hnh
    · rw [hrange, hsplit]
      cases hA : PT (String.mk (dropRightW isPySpace l1)) with
      | none =>
        cases hB : PT (String.mk r1) with
        | none => exact iff_of_true rfl (Or.inr ⟨_, _, rfl, Or.inl hA⟩)
        | some tB => exact iff_of_true rfl (Or.inr ⟨_, _, rfl, Or.inl hA⟩)
      | some tA =>
        cases hB : PT (String.mk r1) with
        | none => exact iff_of_true rfl (Or.inr ⟨_, _, rfl, Or.inr hB⟩)
        | some tB =>
          refine iff_of_false (fun he => Option.noConfusion he) ?_
          rintro (hlen | ⟨p1, p2, hp, hnone⟩)
          · exact hlen (by simp)
          · obtain ⟨h1, h2⟩ := List.cons.inj hp
            obtain ⟨h3, -⟩ := List.cons.inj h2
            subst h1
            subst h3
            rcases hnone with hx | hx
            · rw [hA] at hx
              exact Option.noConfusion hx
            · rw [hB] at hx
              exact Option.noConfusion hx
    · intro t1 t2
      rw [hrange, hsplit]
      cases hA : PT (String.mk (dropRightW isPySpace l1)) with
      | none =>
        cases hB : PT (String.mk r1) with
        | none =>
          refine iff_of_false (fun he => Option.noConfusion he) ?_
          rintro ⟨p1, p2, hp, hp1, hp2⟩
          obtain ⟨h1, -⟩ := List.cons.inj hp
          subst h1
          rw [hA] at hp1
          exact Option.noConfusion hp1
        | some tB =>
          refine iff_of_false (fun he => Option.noConfusion he) ?_
          rintro ⟨p1, p2, hp, hp1, hp2⟩
          obtain ⟨h1, -⟩ := List.cons.inj hp
          subst h1
          rw [hA] at hp1
          exact Option.noConfusion hp1
      | some tA =>
        cases hB : PT (String.mk r1) with
        | none =>
          refine iff_of_false (fun he => Option.noConfusion he) ?_
          rintro ⟨p1, p2, hp, hp1, hp2⟩
          obtain ⟨h1, h2⟩ := List.cons.inj hp
          obtain ⟨h3, -⟩ := List.cons.inj h2
          subst h3
          rw [hB] at hp2
          exact Option.noConfusion hp2
        | some tB =>
          constructor
          · intro he
            obtain ⟨he1, he2⟩ := Prod.mk.inj (Option.some.inj he)
            exact ⟨_, _, rfl, by rw [hA, he1], by rw [hB, he2]⟩
          · rintro ⟨p1, p2, hp, hp1, hp2⟩
            obtain ⟨h1, h2⟩ := List.cons.inj hp
            obtain ⟨h3, -⟩ := List.cons.inj h2
            subst h1
            subst h3
            rw [hA] at hp1
            rw [hB] at hp2
            obtain rfl := Option.some.inj hp1
            obtain rfl := Option.some.inj hp2
            rfl

/-- Claim C8: date parsing uses a native datetime cell directly and
otherwise parses the stringified cell with the lenient parser; it fails
exactly when the cell is not a native datetime and the string does not
parse; on success a naive result is localized to the configured timezone
keeping its wall-clock fields, and an aware result is converted to the
configured timezone preserving its UTC instant. -/
theorem claim_C8 (P : String → Option PyDateTime) (tz : Tz) (v : Value) :
    (parse_datetime P v tz = none ↔
      (∀ d, v ≠ Value.dt d) ∧ P (pyStr v) = none)
    ∧ ∀ r, parse_datetime P v tz = some r →
        ∃ d0, (v = Value.dt d0 ∨
            ((∀ d, v ≠ Value.dt d) ∧ P (pyStr v) = some d0)) ∧
          ((d0.tzoff = none ∧
              r = ⟨d0.naive, some (tz.offsetAt d0.naive)⟩) ∨
           (∃ o, d0.tzoff = some o ∧ toUTC r = d0.naive - o * umin ∧
              r.tzoff = some (tz.offsetAt (d0.naive - o * umin)))) := by
  have convert_case : ∀ (d0 : PyDateTime) (o : Int), d0.tzoff = some o →
      toUTC ⟨d0.naive - o * umin + tz.offsetAt (d0.naive - o * umin) * umin,
        some (tz.offsetAt (d0.naive - o * umin))⟩ = d0.naive - o * umin := by
    intro d0 o ho
    simp only [toUTC, Option.getD_some]
    ring
  cases v with
  | dt d =>
    constructor
    · have hne : parse_datetime P (Value.dt d) tz ≠ none := by
        simp only [parse_datetime]
        cases ho : d.tzoff <;> simp [ho]
      simp only [hne, false_iff]
      rintro ⟨hne2, -⟩
      exact hne2 d rfl
    · intro r hr
      refine ⟨d, Or.inl rfl, ?_⟩
      simp only [parse_datetime] at hr
      cases ho : d.tzoff with
      | none =>
        rw [ho] at hr
        exact Or.inl ⟨rfl, (Option.some.inj hr).symm⟩
      | some o =>
        rw [ho] at hr
        refine Or.inr ⟨o, rfl, ?_, ?_⟩
        · rw [← Option.some.inj hr]
          exact convert_case d o ho
        · rw [← Option.some.inj hr]
  | str s =>
    constructor
    · simp only [parse_datetime]
      cases hP : P (pyStr (Value.str s)) with
      | none => simp [hP]
      | some d0 =>
        simp only [hP]
        cases ho : d0.tzoff <;> simp [ho]
    · intro r hr
      simp only [parse_datetime] at hr
      cases hP : P (pyStr (Value.str s)) with
      | none =>
        rw [hP] at hr
        exact Option.noConfusion hr
      | some d0 =>
        simp only [hP] at hr
        refine ⟨d0, Or.inr ⟨by intro d hd; exact Value.noConfusion hd, rfl⟩, ?_⟩
        cases ho : d0.tzoff with
        | none =>
          rw [ho] at hr
          exact Or.inl ⟨rfl, (Option.some.inj hr).symm⟩
        | some o =>
          rw [ho] at hr
          refine Or.inr ⟨o, rfl, ?_, ?_⟩
          · rw [← Option.some.inj hr]
            exact convert_case d0 o ho
          · rw [← Option.some.inj hr]
  | num n =>
    constructor
    · simp only [parse_datetime]
      cases hP : P (pyStr (Value.num n)) with
      | none => simp [hP]
      | some d0 =>
        simp only [hP]
        cases ho : d0.tzoff <;> simp [ho]
    · intro r hr
      simp only [parse_datetime] at hr
      cases hP : P (pyStr (Value.num n)) with
      | none =>
        rw [hP] at hr
        exact Option.noConfusion hr
      | some d0 =>
        simp only [hP] at hr
        refine ⟨d0, Or.inr ⟨by intro d hd; exact Value.noConfusion hd, rfl⟩, ?_⟩
        cases ho : d0.tzoff with
        | none =>
          rw [ho] at hr
          exact Or.inl ⟨rfl, (Option.some.inj hr).symm⟩
        | some o =>
          rw [ho] at hr
          refine Or.inr ⟨o, rfl, ?_, ?_⟩
          · rw [← Option.some.inj hr]
            exact convert_case d0 o ho
          · rw [← Option.some.inj hr]

/-- Claim C8, witness: a string cell parsed by the exemplar parser is
localized to the configured timezone. -/
theorem claim_C8_witness :
    ∃ d0, (Value.str "2024-01-01" = Value.dt d0 ∨
        ((∀ d, Value.str "2024-01-01" ≠ Value.dt d) ∧
          wP (pyStr (Value.str "2024-01-01")) = some d0)) ∧
      ((d0.tzoff = none ∧
          (⟨0, some 0⟩ : PyDateTime) =
            ⟨d0.naive, some (wTz.offsetAt d0.naive)⟩) ∨
       (∃ o, d0.tzoff = some o ∧
          toUTC ⟨0, some 0⟩ = d0.naive - o * umin ∧
          (⟨0, some 0⟩ : PyDateTime).tzoff =
            some (wTz.offsetAt (d0.naive - o * umin)))) :=
  (claim_C8 wP wTz (Value.str "2024-01-01")).2 ⟨0, some 0⟩ rfl

end ExcelToIcs
